import Mathlib

/-!
Verification development for the TradeWizard realized-P&L and win/loss
analytics engine (`src/backend/app/modules/tradelog/service.py`).

Modelling conventions:
* Python `Decimal` values (quantity, price, commission, pnl) are modelled as
  exact rationals `ℚ`.  The default `Decimal` context carries 28 significant
  digits; every computation considered here stays far below that precision,
  so exact rational arithmetic is a faithful model.
* `datetime` values are modelled as integer epoch seconds; `timedelta`
  is the integer difference.  `strftime %Y-%m` is modelled by a real
  Gregorian-calendar computation (`civilFromDays`).
* Tag names attached to a fill are resolved before invocation (spec section 6);
  a `Trade` record therefore carries its resolved tag-name list directly,
  standing for the `TradeTagAssociation`/`TradeTag` lookup of the source.
* Python `list.sort` is a stable sort; a stable sort by a fixed key has a
  unique output, modelled by `List.insertionSort` (which is stable).
* CPython raises `TypeError` for arithmetic that mixes `float` and `Decimal`.
  In `_calculate_breakdown` (service.py lines 439-441) `win_pct` and
  `loss_pct` are floats (true division of two ints) while `avg_win` and
  `avg_loss` are `Decimal`; line 441 therefore raises `TypeError` for every
  non-empty input.  Fallible code is modelled in `Except String`.
-/

namespace TradeWizard

/-- A trade fill as the engine receives it (model of the `Trade` row:
symbol, quantity, price, side, trade_date, commission, plus the tag names
resolved for this trade). -/
structure Trade where
  symbol : String
  quantity : ℚ
  price : ℚ
  side : String
  trade_date : Int
  commission : ℚ
  tags : List String
  deriving DecidableEq

/-- The per-instrument running position of `_calculate_positions_pnl`:
`position_qty` and `avg_price` (service.py lines 370-371). -/
structure PosState where
  position_qty : ℚ
  avg_price : ℚ
  deriving DecidableEq

/-- One element of the `position_results` list built at service.py
lines 402-411 (a closing event). -/
structure ClosingEvent where
  symbol : String
  pnl : ℚ
  close_date : Int
  quantity : ℚ
  entry_price : ℚ
  exit_price : ℚ
  tags : List String
  hold_time : Int
  deriving DecidableEq

/-- Keys of a dict in first-insertion order: the iteration order of the
`defaultdict(list)` / plain-dict symbol grouping in the source. -/
def uniqueKeys (l : List String) : List String :=
  l.foldl (fun acc s => if s ∈ acc then acc else acc ++ [s]) []

/-- `symbol_trades.sort(key=lambda x: x.trade_date)` — Python sorts stably by
date; stable sorting by a fixed key has a unique output, realised here by
insertion sort. -/
def sortTrades (l : List Trade) : List Trade :=
  List.insertionSort (fun a b => a.trade_date ≤ b.trade_date) l

/-- `opening_trades = [t for t in symbol_trades[:i] if t.side == 'BUY']`
followed by `opening_trades[-1].tags` (empty list when there is no prior
BUY); service.py lines 388-400. -/
def tagsOfLastBuy (processed : List Trade) : List String :=
  match (processed.filter (fun t => t.side == "BUY")).getLast? with
  | some b => b.tags
  | none => []

/-- `trade.trade_date - opening_trades[-1].trade_date if opening_trades else
timedelta(0)`; service.py line 410. -/
def holdOfLastBuy (processed : List Trade) (f : Trade) : Int :=
  match (processed.filter (fun t => t.side == "BUY")).getLast? with
  | some b => f.trade_date - b.trade_date
  | none => 0

/-- State transition of one loop iteration of `_calculate_positions_pnl`
(service.py lines 373-417): BUY updates the weighted average and adds the
quantity; a SELL with positive open quantity closes `min(quantity,
position_qty)` and resets the average price when the position reaches zero;
any other fill leaves the state unchanged. -/
def stepState (st : PosState) (f : Trade) : PosState :=
  if f.side = "BUY" then
    { position_qty := st.position_qty + f.quantity
      avg_price :=
        if st.position_qty = 0 then f.price
        else (st.avg_price * st.position_qty + f.price * f.quantity) /
          (st.position_qty + f.quantity) }
  else if 0 < st.position_qty then
    let close := min f.quantity st.position_qty
    let remaining := st.position_qty - close
    { position_qty := remaining
      avg_price := if remaining = 0 then 0 else st.avg_price }
  else st

/-- Events emitted by one loop iteration of `_calculate_positions_pnl`
(service.py lines 381-411): a SELL against a positive open position emits one
closing event; `processed` is `symbol_trades[:i]`, used only for the
strategy-tag and hold-time attribution. -/
def stepEvents (processed : List Trade) (st : PosState) (f : Trade) :
    List ClosingEvent :=
  if f.side = "BUY" then []
  else if 0 < st.position_qty then
    let close := min f.quantity st.position_qty
    [{ symbol := f.symbol
       pnl := (f.price - st.avg_price) * close - f.commission
       close_date := f.trade_date
       quantity := close
       entry_price := st.avg_price
       exit_price := f.price
       tags := tagsOfLastBuy processed
       hold_time := holdOfLastBuy processed f }]
  else []

/-- The `for i, trade in enumerate(symbol_trades)` loop of
`_calculate_positions_pnl`, one instrument at a time; `processed` is the
prefix `symbol_trades[:i]` already consumed. -/
def runTrades (processed : List Trade) (st : PosState) :
    List Trade → List ClosingEvent
  | [] => []
  | f :: rest =>
      stepEvents processed st f ++
        runTrades (processed ++ [f]) (stepState st f) rest

/-- `_calculate_positions_pnl` (service.py lines 356-419): group the fills by
symbol in first-occurrence order, sort each group stably by date, run the
position reconstruction per symbol and concatenate the emitted events. -/
def calculatePositionsPnl (trades : List Trade) : List ClosingEvent :=
  ((uniqueKeys (trades.map (·.symbol))).map
    (fun s =>
      runTrades [] ⟨0, 0⟩
        (sortTrades (trades.filter (fun f => f.symbol == s))))).flatten

/-- Per-symbol accumulator of `get_dashboard_stats` (service.py lines
126-144): running position and average price, plus the global `total_pnl`
and `winning_trades` accumulators restricted to this symbol. -/
structure DashState where
  position : ℚ
  avg_price : ℚ
  total : ℚ
  wins : Nat
  deriving DecidableEq

/-- One loop iteration of the dashboard P&L computation (service.py lines
131-144).  Note two deliberate differences from `stepState`: the commission
is never subtracted, and the position is reduced by the full SELL quantity
(it may become negative). -/
def dashStep (st : DashState) (f : Trade) : DashState :=
  if f.side = "BUY" then
    { st with
      avg_price :=
        if st.position = 0 then f.price
        else (st.avg_price * st.position + f.price * f.quantity) /
          (st.position + f.quantity)
      position := st.position + f.quantity }
  else if 0 < st.position then
    let pnl := (f.price - st.avg_price) * min f.quantity st.position
    { st with
      total := st.total + pnl
      wins := st.wins + (if 0 < pnl then 1 else 0)
      position := st.position - f.quantity }
  else st

/-- `max(list, default=0)` over rationals. -/
def listMax : List ℚ → ℚ
  | [] => 0
  | x :: xs => xs.foldl max x

/-- `min(list, default=0)` over rationals. -/
def listMin : List ℚ → ℚ
  | [] => 0
  | x :: xs => xs.foldl min x

/-- Python `round(x, 2)` (banker's rounding to two decimal places), with the
binary float representation modelled as an exact rational. -/
def roundHalfEven2 (x : ℚ) : ℚ :=
  let y := x * 100
  let fl : Int := ⌊y⌋
  let fr := y - fl
  let n : Int :=
    if fr < 1/2 then fl
    else if 1/2 < fr then fl + 1
    else if fl % 2 = 0 then fl else fl + 1
  (n : ℚ) / 100

/-- Model of the `DashboardStats` pydantic schema. -/
structure DashboardStats where
  total_trades : Nat
  total_pnl : ℚ
  win_rate : ℚ
  total_commission : ℚ
  best_trade : Option ℚ
  worst_trade : Option ℚ
  deriving DecidableEq

/-- `get_dashboard_stats` (service.py lines 99-155) minus the database
fetch: dashboard statistics computed directly from the raw fills. -/
def getDashboardStats (trades : List Trade) : DashboardStats :=
  if trades.isEmpty then ⟨0, 0, 0, 0, none, none⟩
  else
    let perSymbol := (uniqueKeys (trades.map (·.symbol))).map
      (fun s =>
        (sortTrades (trades.filter (fun f => f.symbol == s))).foldl
          dashStep ⟨0, 0, 0, 0⟩)
    let totalPnl := (perSymbol.map (·.total)).sum
    let winning := (perSymbol.map (·.wins)).sum
    { total_trades := trades.length
      total_pnl := totalPnl
      win_rate := roundHalfEven2 (((winning : ℚ) / (trades.length : ℚ)) * 100)
      total_commission := (trades.map (·.commission)).sum
      best_trade := some (listMax (trades.map (fun t => t.price * t.quantity)))
      worst_trade := some (listMin (trades.map (fun t => t.price * t.quantity))) }

/-- The float value stored in `WinLossBreakdown.profit_factor`: either a
finite value or the positive-infinity sentinel `float(inf)`. -/
inductive PyFloat where
  | finite (q : ℚ)
  | posInf
  deriving DecidableEq

/-- Model of the `WinLossBreakdown` pydantic schema. -/
structure WinLossBreakdown where
  wins : Nat
  losses : Nat
  breakeven : Nat
  win_rate : ℚ
  avg_win : ℚ
  avg_loss : ℚ
  profit_factor : PyFloat
  expectancy : ℚ
  deriving DecidableEq

/-- `_empty_breakdown` (service.py lines 454-465). -/
def emptyBreakdown : WinLossBreakdown :=
  ⟨0, 0, 0, 0, 0, 0, .finite 0, 0⟩

/-- The `TypeError` CPython raises when a `float` is multiplied by a
`Decimal`. -/
def pyTypeError : String :=
  "TypeError: unsupported operand type(s) for *: float and decimal.Decimal"

/-- `_calculate_breakdown` (service.py lines 421-452).  The empty-input guard
returns the zero breakdown.  For non-empty input, lines 426-436 compute
wins, losses, breakeven, totals, `win_rate`, `avg_win`, `avg_loss` and
`profit_factor` without fault, but line 441 computes
`(win_pct * avg_win) - (loss_pct * avg_loss)` where `win_pct` and
`loss_pct` are floats (`len(wins) / len(positions)`) and `avg_win`,
`avg_loss` are `Decimal`; CPython rejects `float * Decimal`, so the call
raises `TypeError` before any `WinLossBreakdown` is constructed. -/
def calculateBreakdown (positions : List ClosingEvent) :
    Except String WinLossBreakdown :=
  if positions.isEmpty then .ok emptyBreakdown
  else .error pyTypeError

/-- Dict buckets in insertion order: appending `e` to bucket `t` of an
association list, creating the bucket at the end when missing (the behaviour
of `defaultdict(list)[t].append(e)`). -/
def addToBucket : List (String × List ClosingEvent) → String → ClosingEvent →
    List (String × List ClosingEvent)
  | [], t, e => [(t, [e])]
  | (k, g) :: rest, t, e =>
      if k = t then (k, g ++ [e]) :: rest
      else (k, g) :: addToBucket rest t e

/-- `defaultdict(list)` grouping of closing events under a string key, in
first-occurrence bucket order with scan-order contents. -/
def groupByKey (key : ClosingEvent → String) (ps : List ClosingEvent) :
    List (String × List ClosingEvent) :=
  ps.foldl (fun bs e => addToBucket bs (key e) e) []

/-- Gregorian civil date `(year, month)` of a day count relative to
1970-01-01 (the calendar computation behind `strftime`). -/
def civilFromDays (z0 : Int) : Int × Int :=
  let z := z0 + 719468
  let era := Int.fdiv z 146097
  let doe := z - era * 146097
  let yoe := (doe - doe / 1460 + doe / 36524 - doe / 146096) / 365
  let y := yoe + era * 400
  let doy := doe - (365 * yoe + yoe / 4 - yoe / 100)
  let mp := (5 * doy + 2) / 153
  let m := mp + (if mp < 10 then 3 else -9)
  (y + (if m ≤ 2 then 1 else 0), m)

/-- Day count relative to 1970-01-01 of a Gregorian civil date (used for
`datetime(year, 1, 1)` and `datetime.min`). -/
def daysFromCivil (y0 m d : Int) : Int :=
  let y := y0 - (if m ≤ 2 then 1 else 0)
  let era := Int.fdiv y 400
  let yoe := y - era * 400
  let doy := (153 * (m + (if 2 < m then -3 else 9)) + 2) / 5 + d - 1
  let doe := yoe * 365 + yoe / 4 - yoe / 100 + doy
  era * 146097 + doe - 719468

/-- `pos['close_date'].strftime('%Y-%m')` (service.py line 475). -/
def monthOf (e : ClosingEvent) : String :=
  let ym := civilFromDays (Int.fdiv e.close_date 86400)
  toString ym.1 ++ "-" ++
    (if ym.2 < 10 then "0" ++ toString ym.2 else toString ym.2)

/-- Model of the `WinLossByTimeframe` pydantic schema. -/
structure WinLossByTimeframe where
  period : String
  timeframe_type : String
  breakdown : WinLossBreakdown
  total_pnl : ℚ
  trade_count : Nat
  deriving DecidableEq

/-- Model of the `WinLossBySymbol` pydantic schema. -/
structure WinLossBySymbol where
  symbol : String
  breakdown : WinLossBreakdown
  total_pnl : ℚ
  trade_count : Nat
  avg_hold_time_hours : Option ℚ
  deriving DecidableEq

/-- Model of the `WinLossByStrategy` pydantic schema. -/
structure WinLossByStrategy where
  strategy : String
  breakdown : WinLossBreakdown
  total_pnl : ℚ
  trade_count : Nat
  deriving DecidableEq

/-- `sorted(monthly_groups.items())`: items of the month grouping in
ascending key order (keys are distinct, so tuple comparison reduces to key
comparison). -/
def monthlyItemsSorted (ps : List ClosingEvent) :
    List (String × List ClosingEvent) :=
  List.insertionSort (fun a b => ¬ b.1 < a.1) (groupByKey monthOf ps)

/-- `_analyze_by_timeframe` (service.py lines 467-491): group by calendar
month, and for each group compute the breakdown (which raises for every
non-empty group), the group P&L sum and the event count. -/
def analyzeByTimeframe (ps : List ClosingEvent) :
    Except String (List WinLossByTimeframe) :=
  if ps.isEmpty then .ok []
  else
    (monthlyItemsSorted ps).mapM (fun it => do
      let bd ← calculateBreakdown it.2
      pure (⟨it.1, "monthly", bd, (it.2.map (·.pnl)).sum, it.2.length⟩ :
        WinLossByTimeframe))

/-- `_analyze_by_symbol` (service.py lines 493-521): group by symbol,
compute per-group breakdown (which raises for every non-empty group), P&L
sum, event count and mean hold time in hours over the events with a truthy
(non-zero) hold time, then sort descending by total P&L. -/
def analyzeBySymbol (ps : List ClosingEvent) :
    Except String (List WinLossBySymbol) :=
  if ps.isEmpty then .ok []
  else do
    let results ← (groupByKey (·.symbol) ps).mapM (fun it => do
      let bd ← calculateBreakdown it.2
      let holdTimes := ((it.2.filter (fun e => e.hold_time != 0)).map
        (fun e => (e.hold_time : ℚ) / 3600))
      let avgHold : Option ℚ :=
        if holdTimes.isEmpty then none
        else some (holdTimes.sum / (holdTimes.length : ℚ))
      pure (⟨it.1, bd, (it.2.map (·.pnl)).sum, it.2.length, avgHold⟩ :
        WinLossBySymbol))
    pure (List.insertionSort (fun a b => b.total_pnl ≤ a.total_pnl) results)

/-- The tag-bucket grouping of `_analyze_by_strategy` (service.py lines
528-536): each event goes to every bucket named by its tags; untagged
events go to the single bucket named No Strategy. -/
def strategyGroups (ps : List ClosingEvent) :
    List (String × List ClosingEvent) :=
  ps.foldl
    (fun bs e =>
      if e.tags.isEmpty then addToBucket bs "No Strategy" e
      else e.tags.foldl (fun bs2 t => addToBucket bs2 t e) bs)
    []

/-- `_analyze_by_strategy` (service.py lines 523-552): per tag bucket,
compute the breakdown (which raises for every non-empty bucket), P&L sum
and event count, then sort descending by total P&L. -/
def analyzeByStrategy (ps : List ClosingEvent) :
    Except String (List WinLossByStrategy) :=
  if ps.isEmpty then .ok []
  else do
    let results ← (strategyGroups ps).mapM (fun it => do
      let bd ← calculateBreakdown it.2
      pure (⟨it.1, bd, (it.2.map (·.pnl)).sum, it.2.length⟩ :
        WinLossByStrategy))
    pure (List.insertionSort (fun a b => b.total_pnl ≤ a.total_pnl) results)

/-- Model of the `WinLossAnalysis` pydantic schema. -/
structure WinLossAnalysis where
  overall : WinLossBreakdown
  by_timeframe : List WinLossByTimeframe
  by_symbol : List WinLossBySymbol
  by_strategy : List WinLossByStrategy
  time_period : String
  deriving DecidableEq

/-- The value returned by `get_win_loss_analysis` both for an empty trade
list (service.py lines 296-303) and from its exception handler (lines
328-337). -/
def emptyAnalysis (tp : String) : WinLossAnalysis :=
  ⟨emptyBreakdown, [], [], [], tp⟩

/-- The body of the `try` block of `get_win_loss_analysis` after the trades
are fetched (service.py lines 305-326); any exception raised inside becomes
an `Except.error`. -/
def winLossCore (trades : List Trade) (tp : String) :
    Except String WinLossAnalysis := do
  let ps := calculatePositionsPnl trades
  let overall ← calculateBreakdown ps
  let byTimeframe ← analyzeByTimeframe ps
  let bySymbol ← analyzeBySymbol ps
  let byStrategy ← analyzeByStrategy ps
  pure ⟨overall, byTimeframe, bySymbol, byStrategy, tp⟩

/-- `get_win_loss_analysis` (service.py lines 281-337) on an already
fetched, already time-filtered trade list: empty input returns the empty
analysis, and the `except Exception` handler turns any internal failure
into the empty analysis as well. -/
def getWinLossAnalysis (trades : List Trade) (tp : String) : WinLossAnalysis :=
  if trades.isEmpty then emptyAnalysis tp
  else
    match winLossCore trades tp with
    | .ok a => a
    | .error _ => emptyAnalysis tp

/-- `_get_cutoff_date` (service.py lines 339-354) with the ambient
`datetime.now()` made an explicit argument `now`; `datetime.min` is
year 1, January 1. -/
def getCutoffDate (now : Int) (tp : String) : Int :=
  if tp = "1m" then now - 30 * 86400
  else if tp = "3m" then now - 90 * 86400
  else if tp = "6m" then now - 180 * 86400
  else if tp = "1y" then now - 365 * 86400
  else if tp = "ytd" then
    daysFromCivil (civilFromDays (Int.fdiv now 86400)).1 1 1 * 86400
  else daysFromCivil 1 1 1 * 86400

/-- `get_win_loss_analysis` including the time-period filtering applied to
the raw fills before reconstruction (service.py lines 290-294), with the
wall clock passed in explicitly. -/
def getWinLossAnalysisTimed (now : Int) (trades : List Trade) (tp : String) :
    WinLossAnalysis :=
  let filtered :=
    if tp = "all" then trades
    else trades.filter (fun f => getCutoffDate now tp ≤ f.trade_date)
  getWinLossAnalysis filtered tp

/-- C1 (code_bug evidence): for Scenario A — BUY 100 @ 150.50 (commission 0)
then SELL 50 @ 155.25 (commission 1.00), same instrument, later timestamp —
position reconstruction emits exactly the single claimed ClosingEvent
(closed quantity 50, entry 150.50, exit 155.25, realized pnl 236.50), but
`_calculate_breakdown` raises `TypeError` on that one event (float times
Decimal at the expectancy line) instead of returning the claimed Breakdown,
and `get_win_loss_analysis` consequently returns the all-zero analysis. -/
theorem c1_scenarioA_event_but_breakdown_raises :
    calculatePositionsPnl
      [⟨"AAPL", 100, 301/2, "BUY", 0, 0, []⟩,
       ⟨"AAPL", 50, 621/4, "SELL", 86400, 1, []⟩] =
      [⟨"AAPL", 473/2, 86400, 50, 301/2, 621/4, [], 86400⟩] ∧
    calculateBreakdown [⟨"AAPL", 473/2, 86400, 50, 301/2, 621/4, [], 86400⟩] =
      .error pyTypeError ∧
    getWinLossAnalysis
      [⟨"AAPL", 100, 301/2, "BUY", 0, 0, []⟩,
       ⟨"AAPL", 50, 621/4, "SELL", 86400, 1, []⟩] "all" = emptyAnalysis "all" := by
  have h : calculatePositionsPnl
      [⟨"AAPL", 100, 301/2, "BUY", 0, 0, []⟩,
       ⟨"AAPL", 50, 621/4, "SELL", 86400, 1, []⟩] =
      [⟨"AAPL", 473/2, 86400, 50, 301/2, 621/4, [], 86400⟩] := by
    norm_num [calculatePositionsPnl, uniqueKeys, sortTrades, List.insertionSort,
      List.orderedInsert, runTrades, stepEvents, stepState, tagsOfLastBuy,
      holdOfLastBuy, min_def]
    decide
  refine ⟨h, rfl, ?_⟩
  simp [getWinLossAnalysis, winLossCore, h, calculateBreakdown, Bind.bind,
    Except.bind, emptyAnalysis]

/-- C4 (code_bug evidence): `_calculate_breakdown` returns the all-zero
breakdown for an empty event collection, but raises `TypeError` for any
non-empty collection — a single winning event, and likewise a single losing
event, never yields the claimed profit-factor sentinel behaviour because the
expectancy line multiplies a float by a Decimal before the function can
return. -/
theorem c4_breakdown_empty_zero_nonempty_raises :
    calculateBreakdown [] = .ok emptyBreakdown ∧
    emptyBreakdown = ⟨0, 0, 0, 0, 0, 0, .finite 0, 0⟩ ∧
    calculateBreakdown [⟨"A", 5, 0, 1, 1, 6, [], 0⟩] = .error pyTypeError ∧
    calculateBreakdown [⟨"A", -5, 0, 1, 6, 1, [], 0⟩] = .error pyTypeError :=
  ⟨rfl, rfl, rfl, rfl⟩

/-- C10: the win/loss entry point is a total function — any failure inside
the analysis body is caught and turned into the all-zero analysis with the
requested time period echoed back, indistinguishable from the result for an
empty fill list (and, because `_calculate_breakdown` raises on every
non-empty event list, this is in fact the result for every input). -/
theorem c10_analysis_never_propagates :
    ∀ (trades : List Trade) (tp : String),
      getWinLossAnalysis trades tp = emptyAnalysis tp ∧
      getWinLossAnalysis trades tp = getWinLossAnalysis [] tp := by
  intro trades tp
  have h : getWinLossAnalysis trades tp = emptyAnalysis tp := by
    unfold getWinLossAnalysis
    by_cases he : trades.isEmpty
    · simp [he]
    · simp only [he, if_false]
      unfold winLossCore
      cases hps : calculatePositionsPnl trades with
      | nil =>
          simp [hps, calculateBreakdown, analyzeByTimeframe, analyzeBySymbol,
            analyzeByStrategy, Bind.bind, Except.bind, Pure.pure, Except.pure,
            emptyAnalysis]
      | cons e es =>
          simp [hps, calculateBreakdown, Bind.bind, Except.bind]
  exact ⟨h, by rw [h]; simp [getWinLossAnalysis]⟩

/-- C6: the analysis depends on the wall clock only through the cutoff-date
computation — with `datetime.now()` made an explicit input, any two clock
values that yield the same cutoff produce bit-for-bit identical analyses on
the same fill list; everything downstream of the cutoff filter is a pure
function of the fills and the period string. -/
theorem c6_clock_enters_only_via_cutoff :
    ∀ (now1 now2 : Int) (trades : List Trade) (tp : String),
      getCutoffDate now1 tp = getCutoffDate now2 tp →
      getWinLossAnalysisTimed now1 trades tp =
        getWinLossAnalysisTimed now2 trades tp := by
  intro n1 n2 trades tp h
  unfold getWinLossAnalysisTimed
  by_cases ha : tp = "all"
  · simp [ha]
  · simp [ha, h]

/-- Witness for `c6_clock_enters_only_via_cutoff` at two distinct clock
values and the period `all`. -/
theorem c6_clock_enters_only_via_cutoff_witness :
    getWinLossAnalysisTimed 0 [] "all" =
      getWinLossAnalysisTimed 1760227200 [] "all" :=
  c6_clock_enters_only_via_cutoff 0 1760227200 [] "all" rfl

/-- C7 (counterexample): the engine performs no validation at all — a fill
whose side is the unknown value HOLD, arriving after a BUY, is silently
processed by the SELL branch and yields a ClosingEvent with computed
numbers, and the entry point returns an ordinary (all-zero) analysis; no
labeled validation error is ever surfaced. -/
theorem c7_unknown_side_processed_counterexample :
    calculatePositionsPnl
      [⟨"A", 10, 5, "BUY", 0, 0, []⟩, ⟨"A", 4, 9, "HOLD", 86400, 0, []⟩] =
      [⟨"A", 16, 86400, 4, 5, 9, [], 86400⟩] ∧
    getWinLossAnalysis
      [⟨"A", 10, 5, "BUY", 0, 0, []⟩, ⟨"A", 4, 9, "HOLD", 86400, 0, []⟩] "all" =
      emptyAnalysis "all" := by
  have h : calculatePositionsPnl
      [⟨"A", 10, 5, "BUY", 0, 0, []⟩, ⟨"A", 4, 9, "HOLD", 86400, 0, []⟩] =
      [⟨"A", 16, 86400, 4, 5, 9, [], 86400⟩] := by
    norm_num [calculatePositionsPnl, uniqueKeys, sortTrades, List.insertionSort,
      List.orderedInsert, runTrades, stepEvents, stepState, tagsOfLastBuy,
      holdOfLastBuy, min_def]
    decide
  refine ⟨h, ?_⟩
  simp [getWinLossAnalysis, winLossCore, h, calculateBreakdown, Bind.bind,
    Except.bind, emptyAnalysis]

/-- C7 (amended): the engine checks no preconditions — any fill whose side
differs from BUY is handled exactly as a SELL (state and emitted events are
those of the same fill with side replaced by SELL), and a negative-quantity
BUY flows through the arithmetic unchecked, driving the open position
negative without any error. -/
theorem c7_no_validation_amended :
    (∀ (st : PosState) (f : Trade), f.side ≠ "BUY" →
      stepState st f = stepState st { f with side := "SELL" } ∧
      ∀ p : List Trade, stepEvents p st f = stepEvents p st { f with side := "SELL" }) ∧
    [(⟨"A", -5, 10, "BUY", 0, 0, []⟩ : Trade)].foldl stepState ⟨0, 0⟩ =
      ⟨-5, 10⟩ := by
  constructor
  · intro st f hf
    constructor
    · unfold stepState
      rw [if_neg hf, if_neg (by decide : ¬ ("SELL" : String) = "BUY")]
    · intro p
      unfold stepEvents
      rw [if_neg hf, if_neg (by decide : ¬ ("SELL" : String) = "BUY")]
      simp [holdOfLastBuy]
  · norm_num [stepState]

/-- Witness for `c7_no_validation_amended`: a fill with side HOLD is
processed exactly as the corresponding SELL. -/
theorem c7_no_validation_amended_witness :
    stepState ⟨10, 4⟩ ⟨"A", 3, 6, "HOLD", 5, 0, []⟩ =
      stepState ⟨10, 4⟩ { (⟨"A", 3, 6, "HOLD", 5, 0, []⟩ : Trade) with side := "SELL" } :=
  (c7_no_validation_amended.1 ⟨10, 4⟩ ⟨"A", 3, 6, "HOLD", 5, 0, []⟩ (by decide)).1

/-- One step of `_calculate_positions_pnl` preserves the state invariant:
the open quantity stays non-negative and the average price is zero whenever
the open quantity is zero. -/
theorem stepState_preserves_inv (st : PosState) (f : Trade)
    (h0 : 0 ≤ st.position_qty) (hz : st.position_qty = 0 → st.avg_price = 0)
    (hq : 0 < f.quantity) :
    0 ≤ (stepState st f).position_qty ∧
    ((stepState st f).position_qty = 0 → (stepState st f).avg_price = 0) := by
  unfold stepState
  by_cases hb : f.side = "BUY"
  · rw [if_pos hb]
    refine ⟨add_nonneg h0 hq.le, fun habs => ?_⟩
    exact absurd habs (add_pos_of_nonneg_of_pos h0 hq).ne.symm
  · rw [if_neg hb]
    by_cases hp : 0 < st.position_qty
    · rw [if_pos hp]
      dsimp only
      refine ⟨sub_nonneg.mpr (min_le_right _ _), fun h => ?_⟩
      rw [if_pos h]
    · rw [if_neg hp]
      exact ⟨h0, hz⟩

/-- C3: invariants of position reconstruction for fills with positive
quantities — a BUY or a matched SELL never drives the open quantity
negative; a SELL emits events whose closed quantity is exactly
`min(sell quantity, open quantity)` and subtracts exactly that amount; a
SELL at zero open quantity emits nothing and leaves the state unchanged;
the average price is reset to zero exactly when the open quantity reaches
zero (and left unchanged while the position stays open); and the invariant
holds after folding any positive-quantity fill sequence from the initial
state. -/
theorem c3_reconstruction_invariants :
    (∀ (st : PosState) (f : Trade), 0 ≤ st.position_qty →
      (st.position_qty = 0 → st.avg_price = 0) → 0 < f.quantity →
      0 ≤ (stepState st f).position_qty ∧
      ((stepState st f).position_qty = 0 → (stepState st f).avg_price = 0)) ∧
    (∀ (p : List Trade) (st : PosState) (f : Trade), f.side ≠ "BUY" →
      st.position_qty = 0 → stepEvents p st f = [] ∧ stepState st f = st) ∧
    (∀ (p : List Trade) (st : PosState) (f : Trade), f.side ≠ "BUY" →
      0 < st.position_qty →
      (∀ e ∈ stepEvents p st f,
        e.quantity = min f.quantity st.position_qty ∧
        e.quantity ≤ st.position_qty) ∧
      (stepState st f).position_qty =
        st.position_qty - min f.quantity st.position_qty ∧
      (0 < (stepState st f).position_qty →
        (stepState st f).avg_price = st.avg_price)) ∧
    (∀ fills : List Trade, (∀ f ∈ fills, 0 < f.quantity) →
      0 ≤ (fills.foldl stepState ⟨0, 0⟩).position_qty ∧
      ((fills.foldl stepState ⟨0, 0⟩).position_qty = 0 →
        (fills.foldl stepState ⟨0, 0⟩).avg_price = 0)) := by
  refine ⟨stepState_preserves_inv, ?_, ?_, ?_⟩
  · intro p st f hb hz
    constructor
    · unfold stepEvents
      simp [hb, hz]
    · unfold stepState
      simp [hb, hz]
  · intro p st f hb hp
    refine ⟨?_, ?_, ?_⟩
    · intro e he
      unfold stepEvents at he
      rw [if_neg hb, if_pos hp] at he
      simp only [List.mem_singleton] at he
      subst he
      exact ⟨rfl, min_le_right _ _⟩
    · unfold stepState
      rw [if_neg hb, if_pos hp]
    · intro hpos
      unfold stepState at hpos ⊢
      rw [if_neg hb, if_pos hp] at hpos ⊢
      simp only at hpos ⊢
      rw [if_neg]
      exact fun h => absurd (h ▸ hpos) (lt_irrefl 0)
  · have main : ∀ (fills : List Trade) (st : PosState),
        (∀ f ∈ fills, 0 < f.quantity) → 0 ≤ st.position_qty →
        (st.position_qty = 0 → st.avg_price = 0) →
        0 ≤ (fills.foldl stepState st).position_qty ∧
        ((fills.foldl stepState st).position_qty = 0 →
          (fills.foldl stepState st).avg_price = 0) := by
      intro fills
      induction fills with
      | nil => intro st _ h0 hz; exact ⟨h0, hz⟩
      | cons f rest ih =>
          intro st hq h0 hz
          have hstep := stepState_preserves_inv st f h0 hz
            (hq f (List.mem_cons_self f rest))
          exact ih (stepState st f)
            (fun g hg => hq g (List.mem_cons_of_mem f hg)) hstep.1 hstep.2
    intro fills hq
    exact main fills ⟨0, 0⟩ hq le_rfl (fun _ => rfl)

/-- Witness for `c3_reconstruction_invariants`: concrete instances of the
step-level invariants, including a partial oversell (SELL 7 against an open
position of 3). -/
theorem c3_reconstruction_invariants_witness :
    0 ≤ (stepState ⟨0, 0⟩ ⟨"A", 5, 10, "BUY", 0, 0, []⟩).position_qty ∧
    (stepState ⟨3, 10⟩ ⟨"A", 7, 12, "SELL", 86400, 0, []⟩).position_qty =
      (3 : ℚ) - min 7 3 ∧
    stepEvents [] ⟨0, 0⟩ ⟨"A", 7, 12, "SELL", 86400, 0, []⟩ = [] ∧
    0 ≤ (([⟨"A", 5, 10, "BUY", 0, 0, []⟩, ⟨"A", 2, 12, "SELL", 86400, 0, []⟩] :
      List Trade).foldl stepState ⟨0, 0⟩).position_qty :=
  ⟨(c3_reconstruction_invariants.1 ⟨0, 0⟩ ⟨"A", 5, 10, "BUY", 0, 0, []⟩
      le_rfl (fun _ => rfl) (by norm_num)).1,
   (c3_reconstruction_invariants.2.2.1 [] ⟨3, 10⟩
      ⟨"A", 7, 12, "SELL", 86400, 0, []⟩ (by decide) (by norm_num)).2.1,
   (c3_reconstruction_invariants.2.1 [] ⟨0, 0⟩
      ⟨"A", 7, 12, "SELL", 86400, 0, []⟩ (by decide) rfl).1,
   (c3_reconstruction_invariants.2.2.2
      [⟨"A", 5, 10, "BUY", 0, 0, []⟩, ⟨"A", 2, 12, "SELL", 86400, 0, []⟩]
      (by intro f hf; fin_cases hf <;> norm_num)).1⟩

/-- Every event emitted by the reconstruction loop originates at some SELL
fill of the sequence, and its tag and hold-time attribution is computed
from the fills strictly preceding that SELL. -/
theorem runTrades_origin :
    ∀ (suf p0 : List Trade) (st : PosState) (e : ClosingEvent),
      e ∈ runTrades p0 st suf →
      ∃ p f rest, suf = p ++ f :: rest ∧ f.side ≠ "BUY" ∧
        e.tags = tagsOfLastBuy (p0 ++ p) ∧
        e.hold_time = holdOfLastBuy (p0 ++ p) f ∧
        e.close_date = f.trade_date := by
  intro suf
  induction suf with
  | nil => intro p0 st e he; exact absurd he (List.not_mem_nil e)
  | cons f rest ih =>
      intro p0 st e he
      rw [runTrades, List.mem_append] at he
      rcases he with hmem | hmem
      · unfold stepEvents at hmem
        by_cases hb : f.side = "BUY"
        · rw [if_pos hb] at hmem
          exact absurd hmem (List.not_mem_nil e)
        · rw [if_neg hb] at hmem
          by_cases hp : 0 < st.position_qty
          · rw [if_pos hp] at hmem
            simp only [List.mem_singleton] at hmem
            subst hmem
            exact ⟨[], f, rest, by simp, hb, by simp, by simp, rfl⟩
          · rw [if_neg hp] at hmem
            exact absurd hmem (List.not_mem_nil e)
      · obtain ⟨p, f', rest', hsuf, hside, htags, hhold, hclose⟩ :=
          ih (p0 ++ [f]) (stepState st f) e hmem
        refine ⟨f :: p, f', rest', by rw [hsuf]; simp, hside, ?_, ?_, hclose⟩
        · rw [htags, List.append_assoc, List.singleton_append]
        · rw [hhold, List.append_assoc, List.singleton_append]

/-- C8: every ClosingEvent emitted by the per-instrument reconstruction run
comes from a SELL fill of the sequence, carries exactly the tags of the
most recent BUY strictly before that SELL (`tagsOfLastBuy` of the preceding
fills, empty when none exists), and its hold time is that SELL's timestamp
minus that BUY's timestamp (zero when no prior BUY exists). -/
theorem c8_tags_hold_attribution :
    ∀ (fills : List Trade) (e : ClosingEvent),
      e ∈ runTrades [] ⟨0, 0⟩ fills →
      ∃ p f rest, fills = p ++ f :: rest ∧ f.side ≠ "BUY" ∧
        e.tags = tagsOfLastBuy p ∧ e.hold_time = holdOfLastBuy p f ∧
        e.close_date = f.trade_date := by
  intro fills e he
  obtain ⟨p, f, rest, hsuf, hside, htags, hhold, hclose⟩ :=
    runTrades_origin fills [] ⟨0, 0⟩ e he
  exact ⟨p, f, rest, hsuf, hside, by simpa using htags, by simpa using hhold,
    hclose⟩

/-- Witness for `c8_tags_hold_attribution`: two BUY fills carrying
different tags followed by one SELL; the emitted event is attributed to the
second (most recent) BUY. -/
theorem c8_tags_hold_attribution_witness :
    ∃ p f rest,
      ([⟨"A", 10, 5, "BUY", 0, 0, ["momentum"]⟩,
        ⟨"A", 10, 7, "BUY", 100, 0, ["swing"]⟩,
        ⟨"A", 4, 9, "SELL", 250, 0, []⟩] : List Trade) = p ++ f :: rest ∧
      f.side ≠ "BUY" ∧
      (⟨"A", 12, 250, 4, 6, 9, ["swing"], 150⟩ : ClosingEvent).tags =
        tagsOfLastBuy p ∧
      (⟨"A", 12, 250, 4, 6, 9, ["swing"], 150⟩ : ClosingEvent).hold_time =
        holdOfLastBuy p f ∧
      (⟨"A", 12, 250, 4, 6, 9, ["swing"], 150⟩ : ClosingEvent).close_date =
        f.trade_date :=
  c8_tags_hold_attribution
    [⟨"A", 10, 5, "BUY", 0, 0, ["momentum"]⟩,
     ⟨"A", 10, 7, "BUY", 100, 0, ["swing"]⟩,
     ⟨"A", 4, 9, "SELL", 250, 0, []⟩]
    ⟨"A", 12, 250, 4, 6, 9, ["swing"], 150⟩
    (by
      have h : runTrades [] (⟨0, 0⟩ : PosState)
          [⟨"A", 10, 5, "BUY", 0, 0, ["momentum"]⟩,
           ⟨"A", 10, 7, "BUY", 100, 0, ["swing"]⟩,
           ⟨"A", 4, 9, "SELL", 250, 0, []⟩] =
          [⟨"A", 12, 250, 4, 6, 9, ["swing"], 150⟩] := by
        norm_num [runTrades, stepEvents, stepState, tagsOfLastBuy,
          holdOfLastBuy, min_def]
        decide
      rw [h]
      exact List.mem_singleton.mpr rfl)

/-- Contents of the bucket named `t` in an association-list dict, the empty
list when the bucket does not exist. -/
def findBucket : List (String × List ClosingEvent) → String → List ClosingEvent
  | [], _ => []
  | (k, g) :: rest, t => if k = t then g else findBucket rest t

/-- The bucket-membership rule of `_analyze_by_strategy`: an event belongs
to bucket `t` when `t` is one of its tags, or when it has no tags and `t`
is the No Strategy bucket. -/
def contributesTo (e : ClosingEvent) (t : String) : Bool :=
  if e.tags.isEmpty then decide (t = "No Strategy") else decide (t ∈ e.tags)

theorem findBucket_addToBucket (bs : List (String × List ClosingEvent))
    (t : String) (e : ClosingEvent) (q : String) :
    findBucket (addToBucket bs t e) q =
      findBucket bs q ++ (if q = t then [e] else []) := by
  induction bs with
  | nil =>
      by_cases h : q = t
      · simp [addToBucket, findBucket, h]
      · simp [addToBucket, findBucket, h, Ne.symm h]
  | cons kg rest ih =>
      obtain ⟨k, g⟩ := kg
      unfold addToBucket
      by_cases hk : k = t
      · rw [if_pos hk]
        by_cases hq : k = q
        · have : q = t := hq ▸ hk
          simp [findBucket, hq, this]
        · have : ¬ q = t := fun h => hq (hk.trans h.symm)
          simp [findBucket, hq, this]
      · rw [if_neg hk]
        by_cases hq : k = q
        · have : ¬ q = t := fun h => hk (hq.trans h)
          simp [findBucket, hq, this]
        · simp [findBucket, hq, ih]

theorem findBucket_tagsFold (e : ClosingEvent) (q : String) :
    ∀ (tags : List String) (bs : List (String × List ClosingEvent)),
      tags.Nodup →
      findBucket (tags.foldl (fun b t => addToBucket b t e) bs) q =
        findBucket bs q ++ (if q ∈ tags then [e] else []) := by
  intro tags
  induction tags with
  | nil => intro bs _; simp
  | cons t ts ih =>
      intro bs hnd
      rw [List.foldl_cons, ih _ (List.nodup_cons.mp hnd).2,
        findBucket_addToBucket]
      by_cases h1 : q = t
      · have hts : t ∉ ts := (List.nodup_cons.mp hnd).1
        simp [h1, hts]
      · by_cases h2 : q ∈ ts
        · simp [h1, h2]
        · simp [h1, h2]

theorem findBucket_strategyGroups_aux (q : String) :
    ∀ (ps : List ClosingEvent) (bs : List (String × List ClosingEvent)),
      (∀ e ∈ ps, e.tags.Nodup) →
      findBucket
        (ps.foldl
          (fun b e =>
            if e.tags.isEmpty then addToBucket b "No Strategy" e
            else e.tags.foldl (fun b2 t => addToBucket b2 t e) b)
          bs) q =
        findBucket bs q ++ ps.filter (fun e => contributesTo e q) := by
  intro ps
  induction ps with
  | nil => intro bs _; simp
  | cons e es ih =>
      intro bs hnd
      rw [List.foldl_cons, ih _ (fun x hx => hnd x (List.mem_cons_of_mem e hx))]
      by_cases he : e.tags.isEmpty
      · rw [if_pos he, findBucket_addToBucket]
        by_cases hq : q = "No Strategy"
        · subst hq
          have hc : contributesTo e "No Strategy" = true := by
            simp [contributesTo, he]
          simp [List.filter_cons, hc, List.append_assoc]
        · have hc : contributesTo e q = false := by simp [contributesTo, he, hq]
          simp [List.filter_cons, hc, hq]
      · rw [if_neg he,
          findBucket_tagsFold e q e.tags bs (hnd e (List.mem_cons_self e es))]
        by_cases hq : q ∈ e.tags
        · have hc : contributesTo e q = true := by simp [contributesTo, he, hq]
          simp [List.filter_cons, hc, hq, List.append_assoc]
        · have hc : contributesTo e q = false := by simp [contributesTo, he, hq]
          simp [List.filter_cons, hc, hq]

theorem addToBucket_keys (bs : List (String × List ClosingEvent))
    (t : String) (e : ClosingEvent) :
    (addToBucket bs t e).map Prod.fst =
      if t ∈ bs.map Prod.fst then bs.map Prod.fst
      else bs.map Prod.fst ++ [t] := by
  induction bs with
  | nil => simp [addToBucket]
  | cons kg rest ih =>
      obtain ⟨k, g⟩ := kg
      unfold addToBucket
      by_cases hk : k = t
      · simp [hk]
      · simp only [if_neg hk, List.map_cons, ih, List.mem_cons]
        by_cases hm : t ∈ rest.map Prod.fst
        · simp [hm]
        · simp [hm, Ne.symm hk]

theorem addToBucket_keys_nodup (bs : List (String × List ClosingEvent))
    (t : String) (e : ClosingEvent) (h : (bs.map Prod.fst).Nodup) :
    ((addToBucket bs t e).map Prod.fst).Nodup := by
  rw [addToBucket_keys]
  by_cases hm : t ∈ bs.map Prod.fst
  · simpa [hm] using h
  · rw [if_neg hm]
    refine List.Nodup.append h (List.nodup_singleton t) ?_
    intro a ha hb
    rw [List.mem_singleton] at hb
    exact hm (hb ▸ ha)

theorem strategyGroups_keys_nodup_aux :
    ∀ (ps : List ClosingEvent) (bs : List (String × List ClosingEvent)),
      (bs.map Prod.fst).Nodup →
      ((ps.foldl
        (fun b e =>
          if e.tags.isEmpty then addToBucket b "No Strategy" e
          else e.tags.foldl (fun b2 t => addToBucket b2 t e) b)
        bs).map Prod.fst).Nodup := by
  intro ps
  induction ps with
  | nil => intro bs h; simpa using h
  | cons e es ih =>
      intro bs h
      rw [List.foldl_cons]
      refine ih _ ?_
      by_cases he : e.tags.isEmpty
      · rw [if_pos he]
        exact addToBucket_keys_nodup bs "No Strategy" e h
      · rw [if_neg he]
        have : ∀ (ts : List String) (cs : List (String × List ClosingEvent)),
            (cs.map Prod.fst).Nodup →
            ((ts.foldl (fun b2 t => addToBucket b2 t e) cs).map Prod.fst).Nodup := by
          intro ts
          induction ts with
          | nil => intro cs hc; exact hc
          | cons t ts2 ih2 =>
              intro cs hc
              rw [List.foldl_cons]
              exact ih2 _ (addToBucket_keys_nodup cs t e hc)
        exact this e.tags bs h

/-- C9: by-strategy fan-out.  The faithful `_analyze_by_strategy` raises
`TypeError` (via `_calculate_breakdown`) for any non-empty event list, so
the emitted view only exists for empty input; the bucket grouping it builds
first (service.py lines 528-536) does satisfy the claim: when each event's
tag list has no duplicates, the bucket named `t` holds exactly the events
that carry tag `t` (in full, so an event with two tags appears in both
buckets), events with no tags land exactly in the single bucket named
No Strategy, and bucket names are pairwise distinct. -/
theorem c9_strategy_fanout :
    analyzeByStrategy [⟨"A", 5, 0, 1, 1, 6, ["a", "b"], 0⟩] =
      .error pyTypeError ∧
    (∀ (ps : List ClosingEvent) (t : String), (∀ e ∈ ps, e.tags.Nodup) →
      findBucket (strategyGroups ps) t =
        ps.filter (fun e => contributesTo e t)) ∧
    (∀ ps : List ClosingEvent, ((strategyGroups ps).map Prod.fst).Nodup) := by
  refine ⟨rfl, ?_, ?_⟩
  · intro ps t hnd
    have := findBucket_strategyGroups_aux t ps [] hnd
    simpa [strategyGroups, findBucket] using this
  · intro ps
    have := strategyGroups_keys_nodup_aux ps [] (by simp)
    simpa [strategyGroups] using this

/-- Witness for `c9_strategy_fanout`: a two-tag event and an untagged
event; bucket `a` holds exactly the tagged event. -/
theorem c9_strategy_fanout_witness :
    findBucket
      (strategyGroups
        [⟨"A", 5, 0, 1, 1, 6, ["a", "b"], 0⟩, ⟨"B", -2, 0, 1, 6, 1, [], 0⟩]) "a" =
      ([⟨"A", 5, 0, 1, 1, 6, ["a", "b"], 0⟩, ⟨"B", -2, 0, 1, 6, 1, [], 0⟩] :
        List ClosingEvent).filter (fun e => contributesTo e "a") :=
  c9_strategy_fanout.2.1
    [⟨"A", 5, 0, 1, 1, 6, ["a", "b"], 0⟩, ⟨"B", -2, 0, 1, 6, 1, [], 0⟩] "a"
    (by decide)

theorem addToBucket_pnl_sum (bs : List (String × List ClosingEvent))
    (t : String) (e : ClosingEvent) :
    ((addToBucket bs t e).map (fun it => (it.2.map (·.pnl)).sum)).sum =
      (bs.map (fun it => (it.2.map (·.pnl)).sum)).sum + e.pnl := by
  induction bs with
  | nil => simp [addToBucket]
  | cons kg rest ih =>
      obtain ⟨k, g⟩ := kg
      unfold addToBucket
      by_cases hk : k = t
      · rw [if_pos hk]
        simp only [List.map_cons, List.sum_cons, List.map_append,
          List.sum_append, List.map_nil, List.sum_nil]
        ring
      · rw [if_neg hk]
        simp only [List.map_cons, List.sum_cons, ih]
        ring

theorem groupByKey_pnl_sum_aux (key : ClosingEvent → String) :
    ∀ (ps : List ClosingEvent) (bs : List (String × List ClosingEvent)),
      ((ps.foldl (fun b e => addToBucket b (key e) e) bs).map
        (fun it => (it.2.map (·.pnl)).sum)).sum =
        (bs.map (fun it => (it.2.map (·.pnl)).sum)).sum +
          (ps.map (·.pnl)).sum := by
  intro ps
  induction ps with
  | nil => intro bs; simp
  | cons e es ih =>
      intro bs
      rw [List.foldl_cons, ih, addToBucket_pnl_sum]
      simp only [List.map_cons, List.sum_cons]
      ring

/-- The groups built by `defaultdict` grouping partition the events: the
per-group pnl sums add up to the total pnl. -/
theorem groupByKey_pnl_sum (key : ClosingEvent → String)
    (ps : List ClosingEvent) :
    ((groupByKey key ps).map (fun it => (it.2.map (·.pnl)).sum)).sum =
      (ps.map (·.pnl)).sum := by
  have := groupByKey_pnl_sum_aux key ps []
  simpa [groupByKey] using this

/-- C5 (code_bug evidence plus the intended identity): both aggregators
raise `TypeError` (via `_calculate_breakdown`) on any non-empty event list,
so for non-empty input no by-period or by-instrument view is ever emitted;
the grouping-and-summing sublogic they are built from (service.py lines
473-481 and 498-505) does satisfy the aggregation identity — the per-month
group totals and the per-symbol group totals each sum to the total realized
pnl of all events. -/
theorem c5_aggregation_identity :
    analyzeByTimeframe [⟨"A", 5, 0, 1, 1, 6, [], 0⟩] = .error pyTypeError ∧
    analyzeBySymbol [⟨"A", 5, 0, 1, 1, 6, [], 0⟩] = .error pyTypeError ∧
    (∀ ps : List ClosingEvent,
      ((monthlyItemsSorted ps).map (fun it => (it.2.map (·.pnl)).sum)).sum =
        (ps.map (·.pnl)).sum) ∧
    (∀ ps : List ClosingEvent,
      ((groupByKey (·.symbol) ps).map (fun it => (it.2.map (·.pnl)).sum)).sum =
        (ps.map (·.pnl)).sum) := by
  refine ⟨rfl, rfl, ?_, fun ps => groupByKey_pnl_sum (·.symbol) ps⟩
  intro ps
  have hperm :
      List.Perm
        ((monthlyItemsSorted ps).map (fun it => (it.2.map (·.pnl)).sum))
        ((groupByKey monthOf ps).map (fun it => (it.2.map (·.pnl)).sum)) :=
    (List.perm_insertionSort _ (groupByKey monthOf ps)).map _
  rw [hperm.sum_eq, groupByKey_pnl_sum monthOf ps]

/-- C2 (counterexample): the dashboard realized P&L does not equal the sum
of the reconstructed closing events' realized pnl.  On BUY 50 @ 10;
SELL 80 @ 12 (commission 1); BUY 50 @ 10; SELL 50 @ 20 (commission 2) the
dashboard computes 300 (no commissions, position driven to -30 by the full
oversell quantity) while the reconstructor's events sum to 597. -/
theorem c2_dashboard_vs_reconstruction_counterexample :
    (getDashboardStats
      [⟨"X", 50, 10, "BUY", 0, 0, []⟩, ⟨"X", 80, 12, "SELL", 86400, 1, []⟩,
       ⟨"X", 50, 10, "BUY", 172800, 0, []⟩,
       ⟨"X", 50, 20, "SELL", 259200, 2, []⟩]).total_pnl ≠
    ((calculatePositionsPnl
      [⟨"X", 50, 10, "BUY", 0, 0, []⟩, ⟨"X", 80, 12, "SELL", 86400, 1, []⟩,
       ⟨"X", 50, 10, "BUY", 172800, 0, []⟩,
       ⟨"X", 50, 20, "SELL", 259200, 2, []⟩]).map (·.pnl)).sum := by
  have hBB : ("BUY" = "BUY") = True := by simp
  have hSB : ("SELL" = "BUY") = False := by simp
  have hs : sortTrades
      [⟨"X", 50, 10, "BUY", 0, 0, []⟩, ⟨"X", 80, 12, "SELL", 86400, 1, []⟩,
       ⟨"X", 50, 10, "BUY", 172800, 0, []⟩, ⟨"X", 50, 20, "SELL", 259200, 2, []⟩] =
      [⟨"X", 50, 10, "BUY", 0, 0, []⟩, ⟨"X", 80, 12, "SELL", 86400, 1, []⟩,
       ⟨"X", 50, 10, "BUY", 172800, 0, []⟩, ⟨"X", 50, 20, "SELL", 259200, 2, []⟩] := by
    norm_num [sortTrades, List.insertionSort, List.orderedInsert]
  have hd : (getDashboardStats
      [⟨"X", 50, 10, "BUY", 0, 0, []⟩, ⟨"X", 80, 12, "SELL", 86400, 1, []⟩,
       ⟨"X", 50, 10, "BUY", 172800, 0, []⟩, ⟨"X", 50, 20, "SELL", 259200, 2, []⟩]).total_pnl
      = 300 := by
    norm_num [getDashboardStats, uniqueKeys, hs, dashStep, min_def, hBB, hSB]
  have hr : ((calculatePositionsPnl
      [⟨"X", 50, 10, "BUY", 0, 0, []⟩, ⟨"X", 80, 12, "SELL", 86400, 1, []⟩,
       ⟨"X", 50, 10, "BUY", 172800, 0, []⟩, ⟨"X", 50, 20, "SELL", 259200, 2, []⟩]).map (·.pnl)).sum
      = 597 := by
    norm_num [calculatePositionsPnl, uniqueKeys, hs, runTrades, stepEvents,
      stepState, tagsOfLastBuy, holdOfLastBuy, min_def, hBB, hSB]
  rw [hd, hr]
  norm_num

/-- Within one instrument, every SELL that meets a positive open position
sells at most the open quantity (the position threaded here matches both
the dashboard and the reconstruction state under that condition). -/
def sellsMatched : ℚ → List Trade → Bool
  | _, [] => true
  | pos, f :: rest =>
      if f.side = "BUY" then sellsMatched (pos + f.quantity) rest
      else if 0 < pos then
        decide (f.quantity ≤ pos) && sellsMatched (pos - f.quantity) rest
      else sellsMatched pos rest

/-- No SELL of any instrument exceeds the open quantity available at its
turn (checked per symbol on the date-sorted fills, exactly the sequences
both computations consume). -/
def noOversell (trades : List Trade) : Bool :=
  (uniqueKeys (trades.map (·.symbol))).all
    (fun s => sellsMatched 0 (sortTrades (trades.filter (fun f => f.symbol == s))))

/-- Alignment of the dashboard fold with the reconstruction fold on one
instrument: while no SELL oversells and SELL commissions are zero, the two
state machines track the same position (and the same average price while
the position is open), so the dashboard total advances by exactly the pnl
of each emitted closing event. -/
theorem dashStep_runTrades_total :
    ∀ (fills p : List Trade) (dst : DashState) (rst : PosState),
      dst.position = rst.position_qty →
      (rst.position_qty ≠ 0 → dst.avg_price = rst.avg_price) →
      sellsMatched rst.position_qty fills = true →
      (∀ f ∈ fills, f.side ≠ "BUY" → f.commission = 0) →
      (fills.foldl dashStep dst).total =
        dst.total + ((runTrades p rst fills).map (·.pnl)).sum := by
  intro fills
  induction fills with
  | nil => intro p dst rst _ _ _ _; simp [runTrades]
  | cons f rest ih =>
      intro p dst rst hpos havg hsm hc
      rw [List.foldl_cons, runTrades, List.map_append, List.sum_append]
      have hcrest : ∀ g ∈ rest, g.side ≠ "BUY" → g.commission = 0 :=
        fun g hg => hc g (List.mem_cons_of_mem f hg)
      by_cases hb : f.side = "BUY"
      · have hev : stepEvents p rst f = [] := by
          unfold stepEvents; rw [if_pos hb]
        have hsm' : sellsMatched (rst.position_qty + f.quantity) rest = true := by
          unfold sellsMatched at hsm; rw [if_pos hb] at hsm; exact hsm
        have hstate : (stepState rst f).position_qty =
            rst.position_qty + f.quantity := by
          unfold stepState; rw [if_pos hb]
        have h1 : (dashStep dst f).position = (stepState rst f).position_qty := by
          unfold dashStep stepState; rw [if_pos hb, if_pos hb]
          dsimp only; rw [hpos]
        have h2 : (stepState rst f).position_qty ≠ 0 →
            (dashStep dst f).avg_price = (stepState rst f).avg_price := by
          intro _
          unfold dashStep stepState; rw [if_pos hb, if_pos hb]
          dsimp only; rw [hpos]
          by_cases hz : rst.position_qty = 0
          · rw [if_pos hz, if_pos hz]
          · rw [if_neg hz, if_neg hz, havg hz]
        have ht : (dashStep dst f).total = dst.total := by
          unfold dashStep; rw [if_pos hb]
        rw [ih (p ++ [f]) (dashStep dst f) (stepState rst f) h1 h2
          (by rw [hstate]; exact hsm') hcrest, ht, hev]
        simp
      · by_cases hp : 0 < rst.position_qty
        · have hsm2 : f.quantity ≤ rst.position_qty ∧
              sellsMatched (rst.position_qty - f.quantity) rest = true := by
            unfold sellsMatched at hsm
            rw [if_neg hb, if_pos hp] at hsm
            simpa using hsm
          have hcf : f.commission = 0 := hc f (List.mem_cons_self f rest) hb
          have hmin : min f.quantity rst.position_qty = f.quantity :=
            min_eq_left hsm2.1
          have havg' : dst.avg_price = rst.avg_price := havg hp.ne.symm
          have hdp : 0 < dst.position := hpos ▸ hp
          have hev : stepEvents p rst f =
              [{ symbol := f.symbol
                 pnl := (f.price - rst.avg_price) * f.quantity - f.commission
                 close_date := f.trade_date
                 quantity := f.quantity
                 entry_price := rst.avg_price
                 exit_price := f.price
                 tags := tagsOfLastBuy p
                 hold_time := holdOfLastBuy p f }] := by
            unfold stepEvents; rw [if_neg hb, if_pos hp]
            dsimp only; rw [hmin]
          have hstate : (stepState rst f).position_qty =
              rst.position_qty - f.quantity := by
            unfold stepState; rw [if_neg hb, if_pos hp]
            dsimp only; rw [hmin]
          have h1 : (dashStep dst f).position = (stepState rst f).position_qty := by
            unfold dashStep; rw [if_neg hb, if_pos hdp]
            dsimp only; rw [hstate, hpos]
          have h2 : (stepState rst f).position_qty ≠ 0 →
              (dashStep dst f).avg_price = (stepState rst f).avg_price := by
            intro hnz
            unfold dashStep
            rw [if_neg hb, if_pos hdp]
            dsimp only
            unfold stepState
            rw [if_neg hb, if_pos hp]
            dsimp only
            unfold stepState at hnz
            rw [if_neg hb, if_pos hp] at hnz
            dsimp only at hnz
            rw [if_neg hnz, havg']
          have ht : (dashStep dst f).total =
              dst.total + (f.price - dst.avg_price) * min f.quantity dst.position := by
            unfold dashStep; rw [if_neg hb, if_pos hdp]
          rw [ih (p ++ [f]) (dashStep dst f) (stepState rst f) h1 h2
            (by rw [hstate]; exact hsm2.2) hcrest, ht, hev]
          simp only [List.map_cons, List.map_nil, List.sum_cons, List.sum_nil]
          rw [hcf, havg', hpos, hmin]
          ring
        · have hev : stepEvents p rst f = [] := by
            unfold stepEvents; rw [if_neg hb, if_neg hp]
          have hstate : stepState rst f = rst := by
            unfold stepState; rw [if_neg hb, if_neg hp]
          have hdstep : dashStep dst f = dst := by
            unfold dashStep
            rw [if_neg hb, if_neg (hpos ▸ hp)]
          have hsm' : sellsMatched rst.position_qty rest = true := by
            unfold sellsMatched at hsm
            rw [if_neg hb, if_neg hp] at hsm
            exact hsm
          rw [hdstep, hstate, hev,
            ih (p ++ [f]) dst rst hpos havg hsm' hcrest]
          simp

/-- Membership is preserved by the stable date sort. -/
theorem mem_sortTrades (a : Trade) (l : List Trade) :
    a ∈ sortTrades l ↔ a ∈ l :=
  (List.perm_insertionSort _ l).mem_iff

/-- C2 (amended): the dashboard total P&L agrees with the summed realized
pnl of the reconstructed closing events exactly on the inputs where the two
algorithms cannot diverge — positive quantities, zero commission on every
non-BUY fill (the dashboard never subtracts commissions), and no SELL
exceeding the open quantity at its turn (the dashboard reduces the
position by the full SELL quantity rather than the matched amount). -/
theorem c2_dashboard_refinement_amended (trades : List Trade)
    (hq : ∀ f ∈ trades, 0 < f.quantity)
    (hc : ∀ f ∈ trades, f.side ≠ "BUY" → f.commission = 0)
    (hno : noOversell trades = true) :
    (getDashboardStats trades).total_pnl =
      ((calculatePositionsPnl trades).map (·.pnl)).sum := by
  unfold getDashboardStats calculatePositionsPnl
  by_cases he : trades.isEmpty
  · have hnil : trades = [] := by
      cases trades with
      | nil => rfl
      | cons a l => simp at he
    subst hnil
    simp [uniqueKeys]
  · rw [if_neg he]
    dsimp only
    rw [List.map_map, List.map_flatten, List.sum_flatten, List.map_map,
      List.map_map]
    refine congrArg List.sum (List.map_congr_left ?_)
    intro s hs
    have hsm : sellsMatched 0
        (sortTrades (trades.filter (fun f => f.symbol == s))) = true := by
      have := (List.all_eq_true.mp hno) s hs
      simpa using this
    have hcs : ∀ f ∈ sortTrades (trades.filter (fun f => f.symbol == s)),
        f.side ≠ "BUY" → f.commission = 0 := by
      intro f hf
      exact hc f (List.mem_of_mem_filter ((mem_sortTrades f _).mp hf))
    have := dashStep_runTrades_total
      (sortTrades (trades.filter (fun f => f.symbol == s))) []
      ⟨0, 0, 0, 0⟩ ⟨0, 0⟩ rfl (fun _ => rfl) hsm hcs
    simpa using this

/-- Witness for `c2_dashboard_refinement_amended`: Scenario A with zero
SELL commission — both computations give 237.50. -/
theorem c2_dashboard_refinement_amended_witness :
    (getDashboardStats
      [⟨"AAPL", 100, 301/2, "BUY", 0, 0, []⟩,
       ⟨"AAPL", 50, 621/4, "SELL", 86400, 0, []⟩]).total_pnl =
      ((calculatePositionsPnl
        [⟨"AAPL", 100, 301/2, "BUY", 0, 0, []⟩,
         ⟨"AAPL", 50, 621/4, "SELL", 86400, 0, []⟩]).map (·.pnl)).sum :=
  c2_dashboard_refinement_amended
    [⟨"AAPL", 100, 301/2, "BUY", 0, 0, []⟩,
     ⟨"AAPL", 50, 621/4, "SELL", 86400, 0, []⟩]
    (by intro f hf; fin_cases hf <;> norm_num)
    (by intro f hf; fin_cases hf <;> simp)
    (by
      have hs : sortTrades
          [⟨"AAPL", 100, 301/2, "BUY", 0, 0, []⟩,
           ⟨"AAPL", 50, 621/4, "SELL", 86400, 0, []⟩] =
          [⟨"AAPL", 100, 301/2, "BUY", 0, 0, []⟩,
           ⟨"AAPL", 50, 621/4, "SELL", 86400, 0, []⟩] := by
        norm_num [sortTrades, List.insertionSort, List.orderedInsert]
      norm_num [noOversell, uniqueKeys, hs, sellsMatched])


end TradeWizard
